import Mathlib

set_option maxRecDepth 8000

/-!
Verification development for the bespoke-array logging/profiling core of the
repository (hphp/runtime/base/bespoke/logging-profile.cpp and
hphp/runtime/base/bespoke/layout.h).

The definitions below are a shallow embedding of that code: pure helpers become
Lean functions, the concurrent tables become association lists with explicit
state passing, machine integers become Nat/Int with explicit bounds where
overflow could matter, and the global tables plus the export flag become an
explicit `GlobalState` record.  External collaborators (SrcKey, TypedValue,
DataType, StringData, the VM register state, folly string escaping) are
modelled as opaque value records carrying exactly the observations the core
makes of them.
-/

/-- Resume mode of a bytecode location.  External to the core; the code only
ever forces it to `ResumeMode::None` via `canonicalize`. -/
inductive ResumeMode where
  | rmNone
  | rmAsync
  | rmGenIter
deriving DecidableEq

/-- Model of `HPHP::SrcKey`: an opaque (function, bytecode-offset, resume-mode)
triple.  `funcId = 0` models the default-constructed, invalid `SrcKey{}`. -/
structure SrcKey where
  funcId : Nat
  off : Nat
  resumeMode : ResumeMode
deriving DecidableEq

/-- The default-constructed `SrcKey{}` used as the "no sink" marker. -/
def SrcKey.empty : SrcKey := ⟨0, 0, ResumeMode.rmNone⟩

/-- `sk.valid()`: the key holds a real function. -/
def SrcKey.valid (sk : SrcKey) : Bool := decide (sk.funcId ≠ 0)

/-- logging-profile.cpp `canonicalize`: keep (func, offset), force resume mode
to `None` so generators and plain functions aggregate into one profile. -/
def canonicalize (sk : SrcKey) : SrcKey :=
  ⟨sk.funcId, sk.off, ResumeMode.rmNone⟩

/-- Modelled from the spec: the `ARRAY_OPS` X-macro list lives in
`logging-profile.h`, which is not among the provided sources.  We model a
representative subset of the ~35 operation tags; the code under verification
only distinguishes `ReleaseUncounted` (the release-specific operation logged
with an empty sink) from all the others. -/
inductive ArrayOp where
  | Get
  | GetInt
  | GetStr
  | SetInt
  | SetStr
  | Append
  | Pop
  | Release
  | ReleaseUncounted
  | EscalateToVanilla
deriving DecidableEq

/-- `arrayOpToString`: the stringified enumerator name (via the X-macro). -/
def arrayOpToString : ArrayOp → String
  | ArrayOp.Get => "Get"
  | ArrayOp.GetInt => "GetInt"
  | ArrayOp.GetStr => "GetStr"
  | ArrayOp.SetInt => "SetInt"
  | ArrayOp.SetStr => "SetStr"
  | ArrayOp.Append => "Append"
  | ArrayOp.Pop => "Pop"
  | ArrayOp.Release => "Release"
  | ArrayOp.ReleaseUncounted => "ReleaseUncounted"
  | ArrayOp.EscalateToVanilla => "EscalateToVanilla"

/-- Model of `HPHP::DataType` (external header): a small representative set of
datatype tags, with persistent/counted string and vec flavors so that
`dt_modulo_persistence` is non-trivial. -/
inductive DataType where
  | KindOfUninit
  | KindOfNull
  | KindOfBoolean
  | KindOfInt64
  | KindOfDouble
  | KindOfPersistentString
  | KindOfString
  | KindOfPersistentVec
  | KindOfVec
deriving DecidableEq

/-- `dt_modulo_persistence`: strip the persistence bit from a datatype. -/
def dt_modulo_persistence : DataType → DataType
  | DataType.KindOfPersistentString => DataType.KindOfString
  | DataType.KindOfPersistentVec => DataType.KindOfVec
  | dt => dt

/-- `tname`: printable name of a datatype (external helper). -/
def tname : DataType → String
  | DataType.KindOfUninit => "Uninit"
  | DataType.KindOfNull => "Null"
  | DataType.KindOfBoolean => "Boolean"
  | DataType.KindOfInt64 => "Int64"
  | DataType.KindOfDouble => "Double"
  | DataType.KindOfPersistentString => "PersistentString"
  | DataType.KindOfString => "String"
  | DataType.KindOfPersistentVec => "PersistentVec"
  | DataType.KindOfVec => "Vec"

/-- Model of `HPHP::StringData*`: the observations the core makes of a string
are its address (the pointer value; non-null for every real string), its
staticness, and its character data. -/
structure StringData where
  addr : Nat
  isStatic : Bool
  data : String
deriving DecidableEq

/-- Model of `HPHP::TypedValue` at the granularity the encoder consumes:
a string, an int, or some other value carrying only its datatype. -/
inductive TypedValue where
  | tvInt (n : Int)
  | tvStr (s : StringData)
  | tvOther (dt : DataType)
deriving DecidableEq

/-- `type(v)`: the datatype tag of a typed value. -/
def TypedValue.dtype : TypedValue → DataType
  | TypedValue.tvInt _ => DataType.KindOfInt64
  | TypedValue.tvStr s =>
      if s.isStatic then DataType.KindOfPersistentString else DataType.KindOfString
  | TypedValue.tvOther dt => dt

/-- `kInt8Min = std::numeric_limits of int8_t::min()`. -/
def kInt8Min : Int := -128

/-- `EventKey::Spec`: the key/value specialization ladder. -/
inductive EventKey.Spec where
  | None
  | Int8
  | Int16
  | Int32
  | Int64
  | Str32
  | Str
deriving DecidableEq

/-- Byte code of a `Spec` tag, following enumerator order. -/
def EventKey.Spec.code : EventKey.Spec → Nat
  | EventKey.Spec.None => 0
  | EventKey.Spec.Int8 => 1
  | EventKey.Spec.Int16 => 2
  | EventKey.Spec.Int32 => 3
  | EventKey.Spec.Int64 => 4
  | EventKey.Spec.Str32 => 5
  | EventKey.Spec.Str => 6

/-- `EventKey::getSpec`: classify a typed value.  A string is `Str32` exactly
when it is static and its pointer fits in 32 bits (`fits of uint32_t`); an int
is classified by the smallest signed width that holds it. -/
def EventKey.getSpec : TypedValue → EventKey.Spec
  | TypedValue.tvStr s =>
      if ¬ s.isStatic then EventKey.Spec.Str
      else if s.addr < 2 ^ 32 then EventKey.Spec.Str32
      else EventKey.Spec.Str
  | TypedValue.tvInt n =>
      if -128 ≤ n ∧ n ≤ 127 then EventKey.Spec.Int8
      else if -32768 ≤ n ∧ n ≤ 32767 then EventKey.Spec.Int16
      else if -2147483648 ≤ n ∧ n ≤ 2147483647 then EventKey.Spec.Int32
      else EventKey.Spec.Int64
  | TypedValue.tvOther _ => EventKey.Spec.None

/-- `EventKey`: the packed per-event record.  Field order mirrors the C++
struct: op byte, key spec, value spec, value datatype (none models
`kInvalidDataType`), and the 32-bit inline key payload. -/
structure EventKey where
  op : ArrayOp
  key_spec : EventKey.Spec := EventKey.Spec.None
  val_spec : EventKey.Spec := EventKey.Spec.None
  val_type : Option DataType := none
  key : Nat := 0
deriving DecidableEq

/-- `EventKey::setKey(int64_t)`: record the int spec; for `Int8` store the
payload biased by `kInt8Min` so the unsigned field distinguishes absence. -/
def EventKey.setKeyInt (e : EventKey) (k : Int) : EventKey :=
  let sp := EventKey.getSpec (TypedValue.tvInt k)
  { e with
    key_spec := sp
    key := if sp = EventKey.Spec.Int8 then (k - kInt8Min).toNat else e.key }

/-- `EventKey::setKey(const StringData*)`: record the string spec; for `Str32`
store the pointer's low 32 bits (here the pointer itself, which fits). -/
def EventKey.setKeyStr (e : EventKey) (s : StringData) : EventKey :=
  let sp := EventKey.getSpec (TypedValue.tvStr s)
  { e with
    key_spec := sp
    key := if sp = EventKey.Spec.Str32 then s.addr else e.key }

/-- `EventKey::setVal`: record the value spec and its datatype with the
persistence bit stripped. -/
def EventKey.setVal (e : EventKey) (v : TypedValue) : EventKey :=
  { e with
    val_spec := EventKey.getSpec v
    val_type := some (dt_modulo_persistence v.dtype) }

/-- Constructor `EventKey(ArrayOp)`. -/
def EventKey.ofOp (op : ArrayOp) : EventKey := { op := op }

/-- Constructor `EventKey(ArrayOp, int64_t)`. -/
def EventKey.ofOpKeyInt (op : ArrayOp) (k : Int) : EventKey :=
  (EventKey.ofOp op).setKeyInt k

/-- Constructor `EventKey(ArrayOp, const StringData*)`. -/
def EventKey.ofOpKeyStr (op : ArrayOp) (s : StringData) : EventKey :=
  (EventKey.ofOp op).setKeyStr s

/-- Constructor `EventKey(ArrayOp, TypedValue)`. -/
def EventKey.ofOpVal (op : ArrayOp) (v : TypedValue) : EventKey :=
  (EventKey.ofOp op).setVal v

/-- Constructor `EventKey(ArrayOp, int64_t, TypedValue)`. -/
def EventKey.ofOpKeyIntVal (op : ArrayOp) (k : Int) (v : TypedValue) : EventKey :=
  ((EventKey.ofOp op).setKeyInt k).setVal v

/-- Constructor `EventKey(ArrayOp, const StringData*, TypedValue)`. -/
def EventKey.ofOpKeyStrVal (op : ArrayOp) (s : StringData) (v : TypedValue) : EventKey :=
  ((EventKey.ofOp op).setKeyStr s).setVal v

/-- Byte code of an `ArrayOp` tag, following enumerator order. -/
def ArrayOp.code : ArrayOp → Nat
  | ArrayOp.Get => 0
  | ArrayOp.GetInt => 1
  | ArrayOp.GetStr => 2
  | ArrayOp.SetInt => 3
  | ArrayOp.SetStr => 4
  | ArrayOp.Append => 5
  | ArrayOp.Pop => 6
  | ArrayOp.Release => 7
  | ArrayOp.ReleaseUncounted => 8
  | ArrayOp.EscalateToVanilla => 9

/-- Byte code of the value-datatype field; `none` models `kInvalidDataType`
(code 0 here; only injectivity of the byte assignment matters). -/
def dataTypeCode : Option DataType → Nat
  | none => 0
  | some DataType.KindOfUninit => 1
  | some DataType.KindOfNull => 2
  | some DataType.KindOfBoolean => 3
  | some DataType.KindOfInt64 => 4
  | some DataType.KindOfDouble => 5
  | some DataType.KindOfPersistentString => 6
  | some DataType.KindOfString => 7
  | some DataType.KindOfPersistentVec => 8
  | some DataType.KindOfVec => 9

/-- `EventKey::toUInt64`: the little-endian byte packing of the record —
byte 0 op, byte 1 key spec, byte 2 value spec, byte 3 value datatype,
bytes 4-7 the inline key payload. -/
def EventKey.toUInt64 (e : EventKey) : Nat :=
  e.op.code + e.key_spec.code * 2 ^ 8 + e.val_spec.code * 2 ^ 16 +
    dataTypeCode e.val_type * 2 ^ 24 + e.key % 2 ^ 32 * 2 ^ 32

/-- Three-digit octal rendering of a byte, as used by C escaping. -/
def octal3 (n : Nat) : String :=
  String.mk [Char.ofNat (48 + n / 64 % 8), Char.ofNat (48 + n / 8 % 8),
             Char.ofNat (48 + n % 8)]

/-- Model of `folly::cEscape` (external library): backslash-escape quote,
backslash and question mark; pass printable ASCII through; render everything
else as a three-digit octal escape. -/
def cEscape (s : String) : String :=
  String.join (s.toList.map (fun c =>
    if c = '"' then "\\\""
    else if c = '\\' then "\\\\"
    else if c = '?' then "\\?"
    else if c.toNat < 32 ∨ 127 ≤ c.toNat then "\\" ++ octal3 c.toNat
    else String.singleton c))

/-- `specToStr` from `EventKey::toString`. -/
def specToStr : EventKey.Spec → String
  | EventKey.Spec.None => "none"
  | EventKey.Spec.Int8 => "i8"
  | EventKey.Spec.Int16 => "i16"
  | EventKey.Spec.Int32 => "i32"
  | EventKey.Spec.Int64 => "i64"
  | EventKey.Spec.Str32 => "s32"
  | EventKey.Spec.Str => "str"

/-- The `key` lambda of `EventKey::toString`.  `heap` models pointer
dereference: it maps a (32-bit) string address to that string's character
data, as the `Str32` branch reads `((StringData*)m_key)->data()`. -/
def EventKey.keyToString (heap : Nat → String) (e : EventKey) : String :=
  match e.key_spec with
  | EventKey.Spec.None => ""
  | EventKey.Spec.Int8 =>
      " key=[i8:" ++ toString ((e.key : Int) + kInt8Min) ++ "]"
  | EventKey.Spec.Str32 =>
      " key=[s32:\"" ++ cEscape (heap e.key) ++ "\"]"
  | sp => " key=[" ++ specToStr sp ++ "]"

/-- The `val` lambda of `EventKey::toString`. -/
def EventKey.valToString (e : EventKey) : String :=
  match e.val_type with
  | none => ""
  | some dt =>
      if e.val_spec = EventKey.Spec.None then " val=[" ++ tname dt ++ "]"
      else " val=[" ++ specToStr e.val_spec ++ "]"

/-- `EventKey::toString`: operation name, then key part, then value part. -/
def EventKey.toString (heap : Nat → String) (e : EventKey) : String :=
  arrayOpToString e.op ++ EventKey.keyToString heap e ++ EventKey.valToString e

/-! ### Concurrent-map model

The tbb concurrent hash maps are modelled as association lists with
insert-if-absent-else-act semantics; the accessor-protected counter update
`if (m.insert(it, k)) it->second = 1; else it->second++;` becomes
`insertOrInc`. -/

/-- Association-list lookup. -/
def assocFind {α β : Type} [DecidableEq α] (m : List (α × β)) (k : α) : Option β :=
  match m with
  | [] => none
  | e :: rest => if e.1 = k then some e.2 else assocFind rest k

/-- The counter pattern on the concurrent maps: on first insert set the
counter to 1, else increment it. -/
def insertOrInc {α : Type} [DecidableEq α] (m : List (α × Nat)) (k : α) :
    List (α × Nat) :=
  match m with
  | [] => [(k, 1)]
  | e :: rest => if e.1 = k then (e.1, e.2 + 1) :: rest else e :: insertOrInc rest k

/-- Stored count of a key, with 0 for an absent key. -/
def lookupCount {α : Type} [DecidableEq α] (m : List (α × Nat)) (k : α) : Nat :=
  (assocFind m k).getD 0

/-- Sum of all stored counts (the loop body of `getTotalEvents`). -/
def sumCounts {α : Type} (m : List (α × Nat)) : Nat :=
  (m.map (fun e => e.2)).sum

/-! ### VM register state and sink resolution -/

/-- Model of the VM register state consulted by `getSrcKey`: whether the rds
header exists, whether the registers are clean after the soft `VMRegAnchor`,
whether `vmfp()` is non-null, whether the frame's func contains `vmpc()`, and
the (func, pc) pair itself. -/
structure VMState where
  hasRdsHeader : Bool
  regStateClean : Bool
  hasVmfp : Bool
  funcContainsPc : Bool
  fpFuncId : Nat
  pcOff : Nat

/-- logging-profile.cpp `getSrcKey`: resolve the current VM location, falling
back to the empty `SrcKey{}` whenever there is no valid frame; a successful
resolution is built directly with `ResumeMode::None`. -/
def getSrcKey (vm : VMState) : SrcKey :=
  if ¬ vm.hasRdsHeader then SrcKey.empty
  else if ¬ vm.regStateClean ∨ ¬ vm.hasVmfp then SrcKey.empty
  else if ¬ vm.funcContainsPc then SrcKey.empty
  else ⟨vm.fpFuncId, vm.pcOff, ResumeMode.rmNone⟩

/-- The sink chosen by `logEventImpl`:
`has_sink = key.getOp() != ArrayOp::ReleaseUncounted;`
`sink = has_sink ? getSrcKey() : SrcKey{}`. -/
def sinkFor (vm : VMState) (key : EventKey) : SrcKey :=
  if key.op ≠ ArrayOp.ReleaseUncounted then getSrcKey vm else SrcKey.empty

/-! ### LoggingProfile -/

/-- Model of `LoggingProfile`: the source location, the events map keyed by
(sink SrcKey, packed EventKey), the monotype-transition map keyed by the
`asInt16` pair, and the two sampling counters. -/
structure LoggingProfile where
  source : SrcKey
  events : List ((SrcKey × Nat) × Nat)
  monotypeEvents : List ((Nat × Nat) × Nat)
  loggingArraysEmitted : Nat
  sampleCount : Nat
deriving DecidableEq

/-- A freshly constructed `LoggingProfile(sk)`. -/
def newLoggingProfile (sk : SrcKey) : LoggingProfile :=
  ⟨sk, [], [], 0, 0⟩

/-- `LoggingProfile::getSampleCountMultiplier`: guarded ratio of samples to
emitted logging arrays (real arithmetic modelled over ℚ). -/
def LoggingProfile.getSampleCountMultiplier (p : LoggingProfile) : ℚ :=
  if p.loggingArraysEmitted = 0 then 0
  else (p.sampleCount : ℚ) / (p.loggingArraysEmitted : ℚ)

/-- `LoggingProfile::getTotalEvents`: sum of all event counts. -/
def LoggingProfile.getTotalEvents (p : LoggingProfile) : Nat :=
  sumCounts p.events

/-- `LoggingProfile::getProfileWeight`. -/
def LoggingProfile.getProfileWeight (p : LoggingProfile) : ℚ :=
  (p.getTotalEvents : ℚ) * p.getSampleCountMultiplier

/-- `LoggingProfile::logEventImpl`: under the export gate, drop the event if
export has started; otherwise resolve the sink (empty for
`ReleaseUncounted`) and bump the (sink, packed key) counter. -/
def LoggingProfile.logEventImpl (exportStarted : Bool) (vm : VMState)
    (key : EventKey) (p : LoggingProfile) : LoggingProfile :=
  if exportStarted then p
  else { p with events := insertOrInc p.events (sinkFor vm key, key.toUInt64) }

/-- `LoggingProfile::logEntryTypes`: same gate, bump the (before, after)
counter in the monotype map. -/
def LoggingProfile.logEntryTypes (exportStarted : Bool) (before after : Nat)
    (p : LoggingProfile) : LoggingProfile :=
  if exportStarted then p
  else { p with monotypeEvents := insertOrInc p.monotypeEvents (before, after) }

/-! ### SinkProfile -/

/-- Model of `ValueTypes` (external header): the tri-state summary of an
array's value types consumed by `SinkProfile::update`. -/
inductive ValueTypes where
  | Empty
  | Monotype
  | Generic
deriving DecidableEq

/-- Modelled from the spec: the histogram-index constants `kNoValTypes` and
`kAnyValType` are declared in `logging-profile.h`, which is not among the
provided sources.  Only a slot assignment injective across the datatype slots
matters; datatypes occupy slots 0-8 by enumerator order. -/
def valTypeIndex : DataType → Nat
  | DataType.KindOfUninit => 0
  | DataType.KindOfNull => 1
  | DataType.KindOfBoolean => 2
  | DataType.KindOfInt64 => 3
  | DataType.KindOfDouble => 4
  | DataType.KindOfPersistentString => 5
  | DataType.KindOfString => 6
  | DataType.KindOfPersistentVec => 7
  | DataType.KindOfVec => 8

/-- Modelled from the spec: the `kNoValTypes` slot for empty arrays. -/
def kNoValTypes : Nat := 9

/-- Modelled from the spec: the `kAnyValType` slot for non-monotyped arrays. -/
def kAnyValType : Nat := 10

/-- Model of the observations `SinkProfile::update` makes of an `ArrayData*`:
vanillaness, the bespoke layout index, the sampled bit, the array kind, and —
for logging arrays — the entry-type summary and the owning profile
(identified by an opaque pointer id). -/
structure ArrayData where
  isVanilla : Bool
  layoutIndexRaw : Nat
  isSampledArray : Bool
  kind : Nat
  keyTypes : Nat
  valueTypes : ValueTypes
  valueDatatype : DataType
  profileId : Nat

/-- `LoggingArray::GetLayoutIndex().raw`: the logging shim layout's index.
The concrete value is assigned at startup; any fixed value serves. -/
def loggingLayoutIndexRaw : Nat := 0

/-- Model of `SinkProfile`: fixed-size histograms become tally functions, the
contributing-source map an association list keyed by profile id. -/
structure SinkProfile where
  sink : Nat × SrcKey
  arrCounts : Nat → Nat
  keyCounts : Nat → Nat
  valCounts : Nat → Nat
  sources : List (Nat × Nat)
  sampledCount : Nat
  unsampledCount : Nat

/-- A freshly constructed `SinkProfile` with its key. -/
def newSinkProfile (k : Nat × SrcKey) : SinkProfile :=
  ⟨k, fun _ => 0, fun _ => 0, fun _ => 0, [], 0, 0⟩

/-- Bump one histogram slot. -/
def bumpAt (f : Nat → Nat) (i : Nat) : Nat → Nat :=
  fun j => if j = i then f j + 1 else f j

/-- `SinkProfile::update`: under the export gate; bail out early on a
non-logging bespoke array; count the sampled bit and the (halved) array kind;
for a logging array additionally count the key-type slot, the tri-state
value slot, and the contributing source profile. -/
def SinkProfile.update (exportStarted : Bool) (p : SinkProfile)
    (ad : ArrayData) : SinkProfile :=
  if exportStarted then p
  else if ¬ ad.isVanilla ∧ ad.layoutIndexRaw ≠ loggingLayoutIndexRaw then p
  else
    let isLogging := ¬ ad.isVanilla
    let p1 :=
      if isLogging ∨ ad.isSampledArray then
        { p with sampledCount := p.sampledCount + 1 }
      else
        { p with unsampledCount := p.unsampledCount + 1 }
    let p2 := { p1 with arrCounts := bumpAt p1.arrCounts (ad.kind / 2) }
    if ¬ isLogging then p2
    else
      let valSlot :=
        if ad.valueTypes = ValueTypes.Empty then kNoValTypes
        else if ad.valueTypes ≠ ValueTypes.Monotype then kAnyValType
        else valTypeIndex (dt_modulo_persistence ad.valueDatatype)
      { p2 with
        keyCounts := bumpAt p2.keyCounts ad.keyTypes
        valCounts := bumpAt p2.valCounts valSlot
        sources := insertOrInc p2.sources ad.profileId }

/-! ### Global tables and the export gate -/

/-- Bytecode opcodes observed by `shouldLogAtSrcKey` (external enum). -/
inductive BCOp where
  | opArray
  | opVec
  | opDict
  | opKeyset
  | opIsTypeStructC
  | opOther
deriving DecidableEq

/-- Model of the bytecode stream: the opcode at a (func, offset) location and
the offset of the following instruction (`sk.advanced()`). -/
structure Program where
  opAt : Nat → Nat → BCOp
  nextOff : Nat → Nat → Nat

/-- `shouldLogAtSrcKey`: reject invalid keys and static array literals that
feed `IsTypeStructC`. -/
def shouldLogAtSrcKey (prog : Program) (sk : SrcKey) : Bool :=
  if ¬ sk.valid then false
  else if (prog.opAt sk.funcId sk.off = BCOp.opArray ∨
           prog.opAt sk.funcId sk.off = BCOp.opDict) ∧
          prog.opAt sk.funcId (prog.nextOff sk.funcId sk.off) =
            BCOp.opIsTypeStructC then false
  else true

/-- The global profiling state: the `s_exportStarted` flag and the two
profile tables (`s_profileMap`, `s_sinkMap`). -/
structure GlobalState where
  exportStarted : Bool
  profileMap : List (SrcKey × LoggingProfile)
  sinkMap : List ((Nat × SrcKey) × SinkProfile)

/-- The state at process start: gate open, both tables empty. -/
def initState : GlobalState := ⟨false, [], []⟩

/-- `getLoggingProfile`: ingress filter, canonicalize, optimistic read, then —
under the export gate — refuse after export or insert a fresh profile.  The
auxiliary static logging/sampled array allocations (and the lost-race free
path) only manage memory for the shim templates and are not modelled; they do
not affect the returned profile or the table contents. -/
def getLoggingProfile (prog : Program) (st : GlobalState) (skRaw : SrcKey) :
    Option LoggingProfile × GlobalState :=
  if ¬ shouldLogAtSrcKey prog skRaw then (none, st)
  else
    let sk := canonicalize skRaw
    match assocFind st.profileMap sk with
    | some p => (some p, st)
    | none =>
        if st.exportStarted then (none, st)
        else
          let p := newLoggingProfile sk
          (some p, { st with profileMap := st.profileMap ++ [(sk, p)] })

/-- `getSinkProfile`: same pattern keyed by (translation id, canonical key). -/
def getSinkProfile (st : GlobalState) (tid : Nat) (skRaw : SrcKey) :
    Option SinkProfile × GlobalState :=
  let key := (tid, canonicalize skRaw)
  match assocFind st.sinkMap key with
  | some p => (some p, st)
  | none =>
      if st.exportStarted then (none, st)
      else
        let p := newSinkProfile key
        (some p, { st with sinkMap := st.sinkMap ++ [(key, p)] })

/-- `exportProfiles`: a no-op when the export path option is empty; otherwise
take the write side of the gate and set `s_exportStarted`.  The spawned worker
only reads the frozen tables to write the report (I/O, not modelled). -/
def exportProfiles (path : String) (st : GlobalState) : GlobalState :=
  if path = "" then st else { st with exportStarted := true }

/-! ### Export aggregation of monotype events (`sortSourceData`) -/

/-- The monotype-event loop of `sortSourceData`: each (before, after) entry
appends an escalation when `before` differs from `after`, and adds its count
to `usesMap[after]` unconditionally. -/
def sortSourceDataMonotypes (m : List ((Nat × Nat) × Nat)) :
    List ((Nat × Nat) × Nat) × (Nat → Nat) :=
  m.foldl
    (fun acc e =>
      (if e.1.1 ≠ e.1.2 then acc.1 ++ [e] else acc.1,
       fun st => if st = e.1.2 then acc.2 st + e.2 else acc.2 st))
    ([], fun _ => 0)

/-! ### Layout index reservation -/

/-- Modelled from the spec: the body of `Layout::ReserveIndices` is not among
the provided sources (layout.h only declares it, with the contract
"`size` must be a power of two; the result is a multiple of `size`").  Per
spec §4.1 it returns the first index of a block of `size` consecutive indices
aligned to `size`, advancing a running allocation cursor, and fails if the
allocation would exceed the 2^15 index space.  `cur` is the cursor before the
call; the result pairs the reserved base index with the new cursor. -/
def Layout.ReserveIndices (cur size : Nat) : Option (Nat × Nat) :=
  if (cur + size - 1) / size * size + size ≤ 2 ^ 15 then
    some ((cur + size - 1) / size * size, (cur + size - 1) / size * size + size)
  else none

/-- The (sink, packed key) pair recorded by `logEventImpl` for one call. -/
def eventPairOf (c : VMState × EventKey) : SrcKey × Nat :=
  (sinkFor c.1 c.2, c.2.toUInt64)

/-- Run a list of `logEvent` calls against one profile, all before export. -/
def runLogEvents (calls : List (VMState × EventKey)) (p : LoggingProfile) :
    LoggingProfile :=
  calls.foldl (fun p c => LoggingProfile.logEventImpl false c.1 c.2 p) p

/-- Number of calls in a list that map to a given (sink, packed key) pair. -/
def countMatching (calls : List (VMState × EventKey)) (pr : SrcKey × Nat) :
    Nat :=
  (calls.filter (fun c => decide (eventPairOf c = pr))).length

/-! ### Claim C1: sink profile update on the S6 scenario -/

/-- A vanilla, unsampled array (kind 0). -/
def vanillaArr : ArrayData :=
  ⟨true, 3, false, 0, 0, ValueTypes.Generic, DataType.KindOfNull, 0⟩

/-- A logging-shim array with integer keys and monotype string values
(kind 12, key-type slot 2, owning profile id 7). -/
def shimArr : ArrayData :=
  ⟨false, loggingLayoutIndexRaw, false, 12, 2, ValueTypes.Monotype,
   DataType.KindOfString, 7⟩

/-- A bespoke array of a different, non-logging layout (kind 4). -/
def otherBespokeArr : ArrayData :=
  ⟨false, loggingLayoutIndexRaw + 5, false, 4, 0, ValueTypes.Generic,
   DataType.KindOfNull, 9⟩

/-- The S6 scenario: 300 vanilla, 200 logging-shim, 100 other-bespoke
arrays processed by one sink before export starts. -/
def sinkS6 : SinkProfile :=
  (List.replicate 300 vanillaArr ++ List.replicate 200 shimArr ++
    List.replicate 100 otherBespokeArr).foldl
    (fun p ad => SinkProfile.update false p ad)
    (newSinkProfile (0, SrcKey.empty))

/-! ### Claim C2: the export gate in getLoggingProfile -/

/-- A program with no denylisted instruction patterns. -/
def ceProg : Program := ⟨fun _ _ => BCOp.opOther, fun _ o => o + 2⟩

/-- A valid, already-canonical source key. -/
def ceSk : SrcKey := ⟨1, 0, ResumeMode.rmNone⟩

/-- The profile created for `ceSk` before export started. -/
def ceProfile : LoggingProfile := newLoggingProfile ceSk

/-- A state in which `ceSk` was profiled before `exportProfiles` ran. -/
def ceState : GlobalState :=
  exportProfiles "report.txt" ⟨false, [(ceSk, ceProfile)], []⟩

/-! ### Claim C8: every stored SrcKey is canonical -/

/-- The profiling operations that can store SrcKeys: source-profile creation,
sink-profile creation, event logging against the profile stored at a source
key, and the export transition. -/
inductive PEvent where
  | pGetProfile (skRaw : SrcKey)
  | pGetSink (tid : Nat) (skRaw : SrcKey)
  | pLogEvent (src : SrcKey) (vm : VMState) (key : EventKey)
  | pExport (path : String)

/-- One step of the profiling core. -/
def stepEvent (prog : Program) (st : GlobalState) (e : PEvent) : GlobalState :=
  match e with
  | PEvent.pGetProfile skRaw => (getLoggingProfile prog st skRaw).2
  | PEvent.pGetSink tid skRaw => (getSinkProfile st tid skRaw).2
  | PEvent.pLogEvent src vm key =>
      { st with profileMap := st.profileMap.map (fun ent =>
          if ent.1 = src then
            (ent.1, LoggingProfile.logEventImpl st.exportStarted vm key ent.2)
          else ent) }
  | PEvent.pExport path => exportProfiles path st

/-- Run a whole trace of profiling operations. -/
def runTrace (prog : Program) (st : GlobalState) (tr : List PEvent) :
    GlobalState :=
  tr.foldl (stepEvent prog) st

/-- All SrcKeys stored in the tables: source-profile keys, the SrcKey part of
sink-profile keys, and the sink component of every events-map key. -/
def storedSrcKeys (st : GlobalState) : List SrcKey :=
  st.profileMap.map Prod.fst
  ++ st.sinkMap.map (fun ent => ent.1.2)
  ++ (st.profileMap.map (fun ent => ent.2.events.map (fun ev => ev.1.1))).flatten

/-- The canonicalization invariant, componentwise over the two tables. -/
def CanonKeys (st : GlobalState) : Prop :=
  (∀ ent ∈ st.profileMap, canonicalize ent.1 = ent.1
      ∧ ∀ ev ∈ ent.2.events, canonicalize ev.1.1 = ev.1.1)
  ∧ (∀ ent ∈ st.sinkMap, canonicalize ent.1.2 = ent.1.2)

theorem canonicalize_resumeMode (sk : SrcKey) :
    (canonicalize sk).resumeMode = ResumeMode.rmNone := rfl

theorem canonicalize_idem (sk : SrcKey) :
    canonicalize (canonicalize sk) = canonicalize sk := rfl

theorem canonicalize_fixed_iff (sk : SrcKey) :
    canonicalize sk = sk ↔ sk.resumeMode = ResumeMode.rmNone := by
  constructor
  · intro h
    exact (congrArg SrcKey.resumeMode h).symm.trans rfl ▸ congrArg SrcKey.resumeMode h
  · intro h
    cases sk
    simp [canonicalize] at h ⊢
    exact h.symm

/-! ### Claim C5 / C10: profile weight arithmetic -/

/-- Claim C5: for every LoggingProfile, `getProfileWeight()` equals
`totalEvents` multiplied by `sampleCount / loggingArraysEmitted`, where
`totalEvents` is the sum of all counts in the profile's events map.  (Over ℚ;
when `loggingArraysEmitted = 0` both the guarded multiplier and the formula's
division-by-zero convention give 0.) -/
theorem getProfileWeight_formula (p : LoggingProfile) :
    p.getProfileWeight
      = (p.getTotalEvents : ℚ) *
          ((p.sampleCount : ℚ) / (p.loggingArraysEmitted : ℚ)) := by
  unfold LoggingProfile.getProfileWeight LoggingProfile.getSampleCountMultiplier
  by_cases h : p.loggingArraysEmitted = 0
  · simp [h]
  · simp [h]

/-- Claim C10: when `loggingArraysEmitted` is 0, `getSampleCountMultiplier`
takes the guard branch and returns 0 without dividing, and consequently
`getProfileWeight` returns 0. -/
theorem getSampleCountMultiplier_zero_guard (p : LoggingProfile)
    (h : p.loggingArraysEmitted = 0) :
    p.getSampleCountMultiplier = 0 ∧ p.getProfileWeight = 0 := by
  have h1 : p.getSampleCountMultiplier = 0 := by
    unfold LoggingProfile.getSampleCountMultiplier
    simp [h]
  exact ⟨h1, by unfold LoggingProfile.getProfileWeight; rw [h1]; ring⟩

/-- Witness for C10 at a concrete zero-emission profile. -/
theorem getSampleCountMultiplier_zero_guard_witness :
    (newLoggingProfile SrcKey.empty).getSampleCountMultiplier = 0
    ∧ (newLoggingProfile SrcKey.empty).getProfileWeight = 0 :=
  getSampleCountMultiplier_zero_guard (newLoggingProfile SrcKey.empty) rfl

/-! ### Claim C9: layout index reservation -/

/-- Claim C9 (spec-modelled, since only the declaration of
`Layout::ReserveIndices` is among the sources): for a power-of-two `size`,
a successful reservation returns a base index that is a multiple of `size`,
at or after the current cursor, whose block of `size` consecutive indices
stays within the 2^15 index space; and the reservation fails exactly when
the aligned block would exceed 2^15. -/
theorem ReserveIndices_aligned (cur size : Nat) (hpow : ∃ k, size = 2 ^ k) :
    (∀ base nxt, Layout.ReserveIndices cur size = some (base, nxt) →
        base % size = 0 ∧ cur ≤ base ∧ base + size ≤ 2 ^ 15 ∧ nxt = base + size)
    ∧ (Layout.ReserveIndices cur size = none ↔
        2 ^ 15 < (cur + size - 1) / size * size + size) := by
  obtain ⟨k, hk⟩ := hpow
  have hsize : 0 < size := by
    rw [hk]; exact Nat.pos_pow_of_pos k (by norm_num)
  have hmod : (cur + size - 1) % size < size := Nat.mod_lt _ hsize
  have hdm : size * ((cur + size - 1) / size) + (cur + size - 1) % size
      = cur + size - 1 := Nat.div_add_mod _ _
  have key : ∀ A r, A + r = cur + size - 1 → r < size → 0 < size → cur ≤ A := by
    intro A r h1 h2 h3
    omega
  have hcur : cur ≤ (cur + size - 1) / size * size := by
    rw [Nat.mul_comm]
    exact key _ _ hdm hmod hsize
  constructor
  · intro base nxt hsome
    simp only [Layout.ReserveIndices] at hsome
    by_cases hle : (cur + size - 1) / size * size + size ≤ 2 ^ 15
    · rw [if_pos hle] at hsome
      have hb1 : (cur + size - 1) / size * size = base :=
        congrArg Prod.fst (Option.some.inj hsome)
      have hb2 : (cur + size - 1) / size * size + size = nxt :=
        congrArg Prod.snd (Option.some.inj hsome)
      subst hb1
      exact ⟨Nat.mul_mod_left _ _, hcur, hle, hb2.symm⟩
    · rw [if_neg hle] at hsome
      exact absurd hsome (by simp)
  · simp only [Layout.ReserveIndices]
    by_cases hle : (cur + size - 1) / size * size + size ≤ 2 ^ 15
    · rw [if_pos hle]
      constructor
      · intro h; exact absurd h (by simp)
      · intro h; omega
    · rw [if_neg hle]
      constructor
      · intro _; omega
      · intro _; rfl

/-- Witness for C9: reserving a block of 8 from cursor 0 yields base 0. -/
theorem ReserveIndices_aligned_witness :
    0 % 8 = 0 ∧ 0 ≤ 0 ∧ 0 + 8 ≤ 2 ^ 15 ∧ 8 = 0 + 8 :=
  (ReserveIndices_aligned 0 8 ⟨3, by norm_num⟩).1 0 8 (by decide)

/-! ### Claim C6: escalations and uses in export aggregation -/

theorem monotypesAux_fst (m : List ((Nat × Nat) × Nat))
    (acc : List ((Nat × Nat) × Nat) × (Nat → Nat)) :
    (m.foldl
      (fun (acc : List ((Nat × Nat) × Nat) × (Nat → Nat))
           (e : (Nat × Nat) × Nat) =>
        (if e.1.1 ≠ e.1.2 then acc.1 ++ [e] else acc.1,
         fun s => if s = e.1.2 then acc.2 s + e.2 else acc.2 s)) acc).1
    = acc.1 ++ m.filter (fun e => decide (e.1.1 ≠ e.1.2)) := by
  induction m generalizing acc with
  | nil => simp
  | cons e rest ih =>
      simp only [List.foldl_cons, List.filter_cons]
      rw [ih]
      by_cases h : e.1.1 = e.1.2
      · simp [h]
      · simp [h]

theorem monotypesAux_snd (m : List ((Nat × Nat) × Nat))
    (acc : List ((Nat × Nat) × Nat) × (Nat → Nat)) (st : Nat) :
    (m.foldl
      (fun (acc : List ((Nat × Nat) × Nat) × (Nat → Nat))
           (e : (Nat × Nat) × Nat) =>
        (if e.1.1 ≠ e.1.2 then acc.1 ++ [e] else acc.1,
         fun s => if s = e.1.2 then acc.2 s + e.2 else acc.2 s)) acc).2 st
    = acc.2 st + ((m.filter (fun e => decide (e.1.2 = st))).map
        (fun e => e.2)).sum := by
  induction m generalizing acc with
  | nil => simp
  | cons e rest ih =>
      simp only [List.foldl_cons, List.filter_cons]
      rw [ih]
      by_cases h : e.1.2 = st
      · subst h
        simp
        omega
      · have h2 : ¬ st = e.1.2 := fun hc => h hc.symm
        simp [h, h2]

/-- Claim C6: in the monotype-event aggregation of `sortSourceData`, a
(before, after) entry with count `c` is emitted as an escalation exactly when
`before ≠ after`, and every entry — equal pair or not — contributes its count
to the use tally of its post-image state. -/
theorem sortSourceData_escalations_uses (m : List ((Nat × Nat) × Nat))
    (b a c st : Nat) :
    (((b, a), c) ∈ (sortSourceDataMonotypes m).1 ↔
        (((b, a), c) ∈ m ∧ b ≠ a))
    ∧ (sortSourceDataMonotypes m).2 st
        = ((m.filter (fun e => decide (e.1.2 = st))).map (fun e => e.2)).sum := by
  constructor
  · unfold sortSourceDataMonotypes
    rw [monotypesAux_fst]
    simp [List.mem_filter]
  · unfold sortSourceDataMonotypes
    rw [monotypesAux_snd]
    simp

/-! ### Claim C4: event counter semantics -/

theorem lookupCount_insertOrInc {α : Type} [DecidableEq α]
    (m : List (α × Nat)) (k k2 : α) :
    lookupCount (insertOrInc m k) k2
      = lookupCount m k2 + (if k2 = k then 1 else 0) := by
  induction m with
  | nil =>
      by_cases h : k = k2
      · subst h; simp [insertOrInc, lookupCount, assocFind]
      · have h2 : ¬ k2 = k := fun hc => h hc.symm
        simp [insertOrInc, lookupCount, assocFind, h, h2]
  | cons e rest ih =>
      simp only [insertOrInc]
      by_cases h1 : e.1 = k
      · by_cases h2 : e.1 = k2
        · have hk : k2 = k := h2 ▸ h1
          simp [lookupCount, assocFind, h1, h2, hk]
        · have hk : ¬ k2 = k := fun hc => h2 (h1.symm ▸ hc ▸ rfl)
          have hk2 : ¬ k = k2 := fun hc => hk hc.symm
          simp [lookupCount, assocFind, h1, h2, hk, hk2]
      · rw [if_neg h1]
        by_cases h2 : e.1 = k2
        · simp [lookupCount, assocFind, h2]
          have hk : ¬ k2 = k := fun hc => h1 (h2 ▸ hc ▸ rfl)
          simp [hk]
        · simp [lookupCount, assocFind, h2]
          exact ih

theorem sumCounts_insertOrInc {α : Type} [DecidableEq α]
    (m : List (α × Nat)) (k : α) :
    sumCounts (insertOrInc m k) = sumCounts m + 1 := by
  induction m with
  | nil => simp [insertOrInc, sumCounts]
  | cons e rest ih =>
      simp only [insertOrInc]
      by_cases h : e.1 = k
      · simp [h, sumCounts]
        omega
      · simp [h, sumCounts] at ih ⊢
        omega

theorem runLogEvents_source (calls : List (VMState × EventKey))
    (p : LoggingProfile) : (runLogEvents calls p).source = p.source := by
  induction calls generalizing p with
  | nil => rfl
  | cons c rest ih =>
      simp only [runLogEvents, List.foldl_cons] at ih ⊢
      rw [ih]
      rfl

theorem runLogEvents_lookup (calls : List (VMState × EventKey))
    (p : LoggingProfile) (pr : SrcKey × Nat) :
    lookupCount (runLogEvents calls p).events pr
      = lookupCount p.events pr + countMatching calls pr := by
  induction calls generalizing p with
  | nil => simp [runLogEvents, countMatching]
  | cons c rest ih =>
      simp only [runLogEvents, List.foldl_cons] at ih ⊢
      rw [ih]
      simp only [LoggingProfile.logEventImpl, if_neg (Bool.false_ne_true)]
      rw [lookupCount_insertOrInc]
      have hcm : countMatching (c :: rest) pr
          = (if pr = (sinkFor c.1 c.2, c.2.toUInt64) then 1 else 0)
            + countMatching rest pr := by
        simp only [countMatching, List.filter_cons, eventPairOf]
        by_cases h : (sinkFor c.1 c.2, c.2.toUInt64) = pr
        · subst h
          simp
          omega
        · have h2 : ¬ pr = (sinkFor c.1 c.2, c.2.toUInt64) := fun hc => h hc.symm
          simp [h, h2]
      rw [hcm]
      generalize (if pr = (sinkFor c.1 c.2, c.2.toUInt64) then 1 else 0) = t
      omega

theorem runLogEvents_sum (calls : List (VMState × EventKey))
    (p : LoggingProfile) :
    sumCounts (runLogEvents calls p).events
      = sumCounts p.events + calls.length := by
  induction calls generalizing p with
  | nil => simp [runLogEvents]
  | cons c rest ih =>
      simp only [runLogEvents, List.foldl_cons] at ih ⊢
      rw [ih]
      simp only [LoggingProfile.logEventImpl, if_neg (Bool.false_ne_true)]
      rw [sumCounts_insertOrInc]
      simp [List.length_cons]
      omega

/-- Claim C4: before export starts, `logEventImpl` sets a fresh (sink,
EventKey) counter to 1 and bumps an existing one by 1, so after any sequence
of logging calls from a fresh profile the counter stored for a pair equals
the number of calls mapping to that pair, and the sum of all stored counts
equals the total number of logged events. -/
theorem logEventImpl_counter_semantics (vm : VMState) (key : EventKey)
    (p : LoggingProfile) (src : SrcKey)
    (calls : List (VMState × EventKey)) (pr : SrcKey × Nat) :
    (lookupCount (LoggingProfile.logEventImpl false vm key p).events
        (sinkFor vm key, key.toUInt64)
      = lookupCount p.events (sinkFor vm key, key.toUInt64) + 1)
    ∧ (lookupCount (runLogEvents calls (newLoggingProfile src)).events pr
        = countMatching calls pr)
    ∧ (sumCounts (runLogEvents calls (newLoggingProfile src)).events
        = calls.length) := by
  refine ⟨?_, ?_, ?_⟩
  · simp only [LoggingProfile.logEventImpl, if_neg (Bool.false_ne_true)]
    rw [lookupCount_insertOrInc]
    simp
  · rw [runLogEvents_lookup]
    simp [newLoggingProfile, lookupCount, assocFind]
  · rw [runLogEvents_sum]
    simp [newLoggingProfile, sumCounts]

/-! ### Claim C7: sink resolution for release operations -/

/-- Claim C7: `logEventImpl` records the event under the empty `SrcKey{}`
unconditionally for the uncounted-release operation, and under the VM
location resolved by `getSrcKey` for every other operation; `getSrcKey`
itself yields the current (func, pc) at resume-mode None when a valid VM
frame exists and the empty `SrcKey` otherwise. -/
theorem logEventImpl_sink_resolution (vm : VMState) (key : EventKey)
    (p : LoggingProfile) :
    ((LoggingProfile.logEventImpl false vm key p).events
        = insertOrInc p.events (sinkFor vm key, key.toUInt64))
    ∧ (key.op = ArrayOp.ReleaseUncounted → sinkFor vm key = SrcKey.empty)
    ∧ (key.op ≠ ArrayOp.ReleaseUncounted → sinkFor vm key = getSrcKey vm)
    ∧ (getSrcKey vm
        = if vm.hasRdsHeader ∧ vm.regStateClean ∧ vm.hasVmfp ∧ vm.funcContainsPc
          then ⟨vm.fpFuncId, vm.pcOff, ResumeMode.rmNone⟩
          else SrcKey.empty) := by
  refine ⟨rfl, ?_, ?_, ?_⟩
  · intro h
    simp [sinkFor, h]
  · intro h
    simp [sinkFor, h]
  · unfold getSrcKey
    by_cases h1 : vm.hasRdsHeader
    · by_cases h2 : vm.regStateClean
      · by_cases h3 : vm.hasVmfp
        · by_cases h4 : vm.funcContainsPc
          · simp [h1, h2, h3, h4]
          · simp [h1, h2, h3, h4]
        · simp [h1, h2, h3]
      · simp [h1, h2]
    · simp [h1]

/-- Witness for C7 at a concrete VM state and a concrete release event. -/
theorem logEventImpl_sink_resolution_witness :
    ((LoggingProfile.logEventImpl false
        ⟨true, true, true, true, 3, 7⟩ (EventKey.ofOp ArrayOp.ReleaseUncounted)
        (newLoggingProfile SrcKey.empty)).events
      = insertOrInc (newLoggingProfile SrcKey.empty).events
          (sinkFor ⟨true, true, true, true, 3, 7⟩
            (EventKey.ofOp ArrayOp.ReleaseUncounted),
           (EventKey.ofOp ArrayOp.ReleaseUncounted).toUInt64))
    ∧ sinkFor ⟨true, true, true, true, 3, 7⟩
        (EventKey.ofOp ArrayOp.ReleaseUncounted) = SrcKey.empty
    ∧ sinkFor ⟨true, true, true, true, 3, 7⟩ (EventKey.ofOp ArrayOp.Get)
        = getSrcKey ⟨true, true, true, true, 3, 7⟩ := by
  refine ⟨?_, ?_, ?_⟩
  · exact (logEventImpl_sink_resolution ⟨true, true, true, true, 3, 7⟩
      (EventKey.ofOp ArrayOp.ReleaseUncounted) (newLoggingProfile SrcKey.empty)).1
  · exact (logEventImpl_sink_resolution ⟨true, true, true, true, 3, 7⟩
      (EventKey.ofOp ArrayOp.ReleaseUncounted)
      (newLoggingProfile SrcKey.empty)).2.1 rfl
  · exact (logEventImpl_sink_resolution ⟨true, true, true, true, 3, 7⟩
      (EventKey.ofOp ArrayOp.Get) (newLoggingProfile SrcKey.empty)).2.2.1
      (by decide)

/-! ### Claim C3: EventKey encode/render round trip -/

theorem getSpec_int8 (n : Int) (h1 : -128 ≤ n) (h2 : n ≤ 127) :
    EventKey.getSpec (TypedValue.tvInt n) = EventKey.Spec.Int8 := by
  simp only [EventKey.getSpec]
  rw [if_pos ⟨h1, h2⟩]

theorem getSpec_int16 (n : Int) (h8 : ¬ (-128 ≤ n ∧ n ≤ 127))
    (h16 : -32768 ≤ n ∧ n ≤ 32767) :
    EventKey.getSpec (TypedValue.tvInt n) = EventKey.Spec.Int16 := by
  simp only [EventKey.getSpec]
  rw [if_neg h8, if_pos h16]

theorem getSpec_int32 (n : Int) (h8 : ¬ (-128 ≤ n ∧ n ≤ 127))
    (h16 : ¬ (-32768 ≤ n ∧ n ≤ 32767))
    (h32 : -2147483648 ≤ n ∧ n ≤ 2147483647) :
    EventKey.getSpec (TypedValue.tvInt n) = EventKey.Spec.Int32 := by
  simp only [EventKey.getSpec]
  rw [if_neg h8, if_neg h16, if_pos h32]

theorem getSpec_int64 (n : Int) (h8 : ¬ (-128 ≤ n ∧ n ≤ 127))
    (h16 : ¬ (-32768 ≤ n ∧ n ≤ 32767))
    (h32 : ¬ (-2147483648 ≤ n ∧ n ≤ 2147483647)) :
    EventKey.getSpec (TypedValue.tvInt n) = EventKey.Spec.Int64 := by
  simp only [EventKey.getSpec]
  rw [if_neg h8, if_neg h16, if_neg h32]

theorem getSpec_str32 (s : StringData) (hst : s.isStatic = true)
    (hlt : s.addr < 2 ^ 32) :
    EventKey.getSpec (TypedValue.tvStr s) = EventKey.Spec.Str32 := by
  have hns : ¬ ¬ s.isStatic = true := by simp [hst]
  simp only [EventKey.getSpec]
  rw [if_neg hns, if_pos hlt]

theorem getSpec_str_other (s : StringData)
    (h : ¬ (s.isStatic = true ∧ s.addr < 2 ^ 32)) :
    EventKey.getSpec (TypedValue.tvStr s) = EventKey.Spec.Str := by
  by_cases hst : s.isStatic = true
  · have hlt : ¬ s.addr < 2 ^ 32 := fun hc => h ⟨hst, hc⟩
    have hns : ¬ ¬ s.isStatic = true := by simp [hst]
    simp only [EventKey.getSpec]
    rw [if_neg hns, if_neg hlt]
  · simp only [EventKey.getSpec]
    rw [if_pos hst]

theorem ofOpKeyInt_int8 (op : ArrayOp) (n : Int) (h1 : -128 ≤ n) (h2 : n ≤ 127) :
    EventKey.ofOpKeyInt op n
      = { op := op, key_spec := EventKey.Spec.Int8,
          key := (n - kInt8Min).toNat } := by
  simp only [EventKey.ofOpKeyInt, EventKey.setKeyInt, EventKey.ofOp,
             getSpec_int8 n h1 h2, if_pos rfl]
  simp

theorem ofOpKeyInt_not_int8 (op : ArrayOp) (n : Int)
    (h : ¬ (-128 ≤ n ∧ n ≤ 127)) :
    EventKey.ofOpKeyInt op n
      = { op := op, key_spec := EventKey.getSpec (TypedValue.tvInt n) } := by
  have hne : EventKey.getSpec (TypedValue.tvInt n) ≠ EventKey.Spec.Int8 := by
    simp only [EventKey.getSpec]
    rw [if_neg h]
    split_ifs <;> simp
  simp only [EventKey.ofOpKeyInt, EventKey.setKeyInt, EventKey.ofOp, if_neg hne]

theorem keyToString_tag (heap : Nat → String) (op : ArrayOp)
    (sp : EventKey.Spec)
    (h : sp = EventKey.Spec.Int16 ∨ sp = EventKey.Spec.Int32 ∨
         sp = EventKey.Spec.Int64 ∨ sp = EventKey.Spec.Str) :
    EventKey.keyToString heap { op := op, key_spec := sp }
      = " key=[" ++ specToStr sp ++ "]" := by
  rcases h with h | h | h | h <;> subst h <;> rfl

/-- Claim C3: for every operation tag, (1) an `EventKey` built from an int key
in `[INT8_MIN, INT8_MAX]` renders as `key=[i8:n]` with exactly the original
integer; (2) an int key outside that range renders as its category tag alone
(`i16`/`i32`/`i64`); (3) a static-string key whose non-zero pointer equals its
own low 32 bits renders the escaped string contents; (4) every other string
key (non-null pointer) renders only the `str` category tag. -/
theorem eventKey_render_roundtrip (op : ArrayOp) (n : Int) (s : StringData)
    (heap : Nat → String) :
    ((-128 ≤ n ∧ n ≤ 127) →
        EventKey.toString heap (EventKey.ofOpKeyInt op n)
          = arrayOpToString op ++ " key=[i8:" ++ toString n ++ "]")
    ∧ ((n < -128 ∨ 127 < n) →
        ∃ t, (t = "i16" ∨ t = "i32" ∨ t = "i64") ∧
          EventKey.toString heap (EventKey.ofOpKeyInt op n)
            = arrayOpToString op ++ " key=[" ++ t ++ "]")
    ∧ (s.isStatic = true → s.addr ≠ 0 → s.addr < 2 ^ 32 →
        heap s.addr = s.data →
        EventKey.toString heap (EventKey.ofOpKeyStr op s)
          = arrayOpToString op ++ " key=[s32:\"" ++ cEscape s.data ++ "\"]")
    ∧ (s.addr ≠ 0 → ¬ (s.isStatic = true ∧ s.addr < 2 ^ 32) →
        EventKey.toString heap (EventKey.ofOpKeyStr op s)
          = arrayOpToString op ++ " key=[str]") := by
  refine ⟨?_, ?_, ?_, ?_⟩
  · rintro ⟨h1, h2⟩
    rw [ofOpKeyInt_int8 op n h1 h2]
    have hn : (((n - kInt8Min).toNat : Int) + kInt8Min) = n := by
      simp only [kInt8Min]
      omega
    show arrayOpToString op ++
        (" key=[i8:" ++ ToString.toString (((n - kInt8Min).toNat : Int) + kInt8Min)
          ++ "]") ++ "" = _
    rw [hn]
    simp [String.append_assoc]
  · intro h
    have h2 : ¬ (-128 ≤ n ∧ n ≤ 127) := by omega
    rw [ofOpKeyInt_not_int8 op n h2]
    by_cases h16 : -32768 ≤ n ∧ n ≤ 32767
    · refine ⟨"i16", Or.inl rfl, ?_⟩
      rw [getSpec_int16 n h2 h16,
          show EventKey.toString heap
              { op := op, key_spec := EventKey.Spec.Int16 }
            = arrayOpToString op ++
                EventKey.keyToString heap
                  { op := op, key_spec := EventKey.Spec.Int16 } ++ "" from rfl,
          keyToString_tag heap op _ (Or.inl rfl)]
      simp [specToStr, String.append_assoc]
    · by_cases h32 : -2147483648 ≤ n ∧ n ≤ 2147483647
      · refine ⟨"i32", Or.inr (Or.inl rfl), ?_⟩
        rw [getSpec_int32 n h2 h16 h32,
            show EventKey.toString heap
                { op := op, key_spec := EventKey.Spec.Int32 }
              = arrayOpToString op ++
                  EventKey.keyToString heap
                    { op := op, key_spec := EventKey.Spec.Int32 } ++ "" from rfl,
            keyToString_tag heap op _ (Or.inr (Or.inl rfl))]
        simp [specToStr, String.append_assoc]
      · refine ⟨"i64", Or.inr (Or.inr rfl), ?_⟩
        rw [getSpec_int64 n h2 h16 h32,
            show EventKey.toString heap
                { op := op, key_spec := EventKey.Spec.Int64 }
              = arrayOpToString op ++
                  EventKey.keyToString heap
                    { op := op, key_spec := EventKey.Spec.Int64 } ++ "" from rfl,
            keyToString_tag heap op _ (Or.inr (Or.inr (Or.inl rfl)))]
        simp [specToStr, String.append_assoc]
  · intro hst _ hlt hheap
    have hkey : EventKey.ofOpKeyStr op s
        = { op := op, key_spec := EventKey.Spec.Str32, key := s.addr } := by
      simp only [EventKey.ofOpKeyStr, EventKey.setKeyStr, EventKey.ofOp,
                 getSpec_str32 s hst hlt, if_pos rfl]
      simp
    rw [hkey]
    show arrayOpToString op ++
        (" key=[s32:\"" ++ cEscape (heap s.addr) ++ "\"]") ++ "" = _
    rw [hheap]
    simp [String.append_assoc]
  · intro _ hother
    have hkey : EventKey.ofOpKeyStr op s
        = { op := op, key_spec := EventKey.Spec.Str } := by
      have hne : EventKey.getSpec (TypedValue.tvStr s) ≠ EventKey.Spec.Str32 := by
        rw [getSpec_str_other s hother]
        simp
      simp only [EventKey.ofOpKeyStr, EventKey.setKeyStr, EventKey.ofOp,
                 getSpec_str_other s hother]
      simp
    rw [hkey,
        show EventKey.toString heap { op := op, key_spec := EventKey.Spec.Str }
          = arrayOpToString op ++
              EventKey.keyToString heap
                { op := op, key_spec := EventKey.Spec.Str } ++ "" from rfl,
        keyToString_tag heap op _ (Or.inr (Or.inr (Or.inr rfl)))]
    simp [specToStr, String.append_assoc]

/-- Witness for C3 at concrete keys: int 5, int 1000, a 32-bit static string,
and a non-static string. -/
theorem eventKey_render_roundtrip_witness :
    (EventKey.toString (fun _ => "ab") (EventKey.ofOpKeyInt ArrayOp.Get 5)
        = arrayOpToString ArrayOp.Get ++ " key=[i8:" ++ toString (5 : Int) ++ "]")
    ∧ (∃ t, (t = "i16" ∨ t = "i32" ∨ t = "i64") ∧
        EventKey.toString (fun _ => "ab") (EventKey.ofOpKeyInt ArrayOp.Get 1000)
          = arrayOpToString ArrayOp.Get ++ " key=[" ++ t ++ "]")
    ∧ (EventKey.toString (fun _ => "ab")
          (EventKey.ofOpKeyStr ArrayOp.Get ⟨4096, true, "ab"⟩)
        = arrayOpToString ArrayOp.Get ++ " key=[s32:\"" ++ cEscape "ab" ++ "\"]")
    ∧ (EventKey.toString (fun _ => "ab")
          (EventKey.ofOpKeyStr ArrayOp.Get ⟨4096, false, "ab"⟩)
        = arrayOpToString ArrayOp.Get ++ " key=[str]") := by
  refine ⟨?_, ?_, ?_, ?_⟩
  · exact (eventKey_render_roundtrip ArrayOp.Get 5 ⟨4096, true, "ab"⟩
      (fun _ => "ab")).1 (by norm_num)
  · exact (eventKey_render_roundtrip ArrayOp.Get 1000 ⟨4096, true, "ab"⟩
      (fun _ => "ab")).2.1 (by norm_num)
  · exact (eventKey_render_roundtrip ArrayOp.Get 5 ⟨4096, true, "ab"⟩
      (fun _ => "ab")).2.2.1 rfl (by norm_num) (by norm_num) rfl
  · exact (eventKey_render_roundtrip ArrayOp.Get 5 ⟨4096, false, "ab"⟩
      (fun _ => "ab")).2.2.2 (by norm_num) (by simp)

/-- Counterexample to claim C1 as stated: on the S6 scenario the code leaves
`unsampledCount` at 300, not 400, and the other-bespoke arrays are not
counted in the array-kind histogram either — `SinkProfile::update` returns
before touching any counter when it sees a non-logging bespoke layout. -/
theorem sinkProfile_update_s6_counterexample :
    sinkS6.unsampledCount = 300 ∧ sinkS6.unsampledCount ≠ 400
    ∧ sinkS6.arrCounts (4 / 2) = 0 := by
  have h : sinkS6.unsampledCount = 300 := rfl
  refine ⟨h, ?_, rfl⟩
  rw [h]
  decide

/-- Claim C1 (amended): on the S6 scenario the sink profile ends with
`sampledCount` = 200, `unsampledCount` = 300, 200 integer-key entries in the
key histogram, 200 (monotype) string entries in the value histogram, the 300
vanilla and 200 shim arrays in the array-kind histogram, and the 100
other-bespoke arrays in no histogram or counter at all. -/
theorem sinkProfile_update_s6_amended :
    sinkS6.sampledCount = 200
    ∧ sinkS6.unsampledCount = 300
    ∧ sinkS6.keyCounts 2 = 200
    ∧ sinkS6.valCounts (valTypeIndex DataType.KindOfString) = 200
    ∧ sinkS6.arrCounts (0 / 2) = 300
    ∧ sinkS6.arrCounts (12 / 2) = 200
    ∧ sinkS6.arrCounts (4 / 2) = 0 :=
  ⟨rfl, rfl, rfl, rfl, rfl, rfl, rfl⟩

/-- Counterexample to claim C2 as stated: after export has started,
`getLoggingProfile` on a SrcKey that is already in the table returns the
existing profile — not null — because the optimistic table read happens
before the export-gate check. -/
theorem getLoggingProfile_after_export_counterexample :
    ceState.exportStarted = true
    ∧ (getLoggingProfile ceProg ceState ceSk).1 = some ceProfile
    ∧ (getLoggingProfile ceProg ceState ceSk).1 ≠ none := by
  have h : (getLoggingProfile ceProg ceState ceSk).1 = some ceProfile := rfl
  refine ⟨rfl, h, ?_⟩
  rw [h]
  simp

/-- Claim C2 (amended): once `exportProfiles` has set the export-started flag,
`getLoggingProfile` never modifies the profile table — no new entry appears
for any SrcKey; its return value is null for every SrcKey whose canonical
form is not already in the table, and for a SrcKey that passes the ingress
filter and whose canonical form is already in the table it returns that
existing profile. -/
theorem getLoggingProfile_after_export_amended (path : String)
    (st0 : GlobalState) (prog : Program) (skRaw : SrcKey)
    (hpath : path ≠ "") :
    ((getLoggingProfile prog (exportProfiles path st0) skRaw).2
        = exportProfiles path st0)
    ∧ (assocFind (exportProfiles path st0).profileMap
          (canonicalize skRaw) = none →
        (getLoggingProfile prog (exportProfiles path st0) skRaw).1 = none)
    ∧ (∀ p, shouldLogAtSrcKey prog skRaw = true →
        assocFind (exportProfiles path st0).profileMap
          (canonicalize skRaw) = some p →
        (getLoggingProfile prog (exportProfiles path st0) skRaw).1 = some p) := by
  have hexp : (exportProfiles path st0).exportStarted = true := by
    unfold exportProfiles
    rw [if_neg hpath]
  have main : getLoggingProfile prog (exportProfiles path st0) skRaw
      = (if shouldLogAtSrcKey prog skRaw = true then
           assocFind (exportProfiles path st0).profileMap (canonicalize skRaw)
         else none,
         exportProfiles path st0) := by
    unfold getLoggingProfile
    by_cases hlog : shouldLogAtSrcKey prog skRaw = true
    · rw [if_neg (not_not_intro hlog), if_pos hlog]
      simp only []
      cases hfind : assocFind (exportProfiles path st0).profileMap
          (canonicalize skRaw) with
      | some p => rfl
      | none =>
          rw [hexp]
          simp
    · rw [if_pos hlog, if_neg hlog]
  refine ⟨?_, ?_, ?_⟩
  · rw [main]
  · intro hmiss
    rw [main]
    simp only [hmiss]
    split <;> rfl
  · intro p hlog hsome
    rw [main]
    simp [hlog, hsome]

/-- Witness for the amended C2: after export, a fresh key from the empty
table misses and yields null, and a key profiled before export hits and
yields its existing profile; the table is unchanged in both runs. -/
theorem getLoggingProfile_after_export_witness :
    ((getLoggingProfile ceProg (exportProfiles "report.txt" initState)
        ⟨2, 0, ResumeMode.rmAsync⟩).2 = exportProfiles "report.txt" initState)
    ∧ ((getLoggingProfile ceProg (exportProfiles "report.txt" initState)
        ⟨2, 0, ResumeMode.rmAsync⟩).1 = none)
    ∧ ((getLoggingProfile ceProg ceState ceSk).2 = ceState)
    ∧ ((getLoggingProfile ceProg ceState ceSk).1 = some ceProfile) := by
  refine ⟨?_, ?_, ?_, ?_⟩
  · exact (getLoggingProfile_after_export_amended "report.txt" initState
      ceProg ⟨2, 0, ResumeMode.rmAsync⟩ (by simp)).1
  · exact (getLoggingProfile_after_export_amended "report.txt" initState
      ceProg ⟨2, 0, ResumeMode.rmAsync⟩ (by simp)).2.1 rfl
  · exact (getLoggingProfile_after_export_amended "report.txt"
      ⟨false, [(ceSk, ceProfile)], []⟩ ceProg ceSk (by simp)).1
  · exact (getLoggingProfile_after_export_amended "report.txt"
      ⟨false, [(ceSk, ceProfile)], []⟩ ceProg ceSk (by simp)).2.2
      ceProfile (by decide) rfl

theorem canonicalize_sinkFor (vm : VMState) (key : EventKey) :
    canonicalize (sinkFor vm key) = sinkFor vm key := by
  unfold sinkFor getSrcKey
  split_ifs <;> rfl

theorem mem_insertOrInc {α : Type} [DecidableEq α] (m : List (α × Nat))
    (k : α) (e : α × Nat) (h : e ∈ insertOrInc m k) :
    (∃ c, (e.1, c) ∈ m) ∨ e.1 = k := by
  induction m with
  | nil =>
      simp only [insertOrInc, List.mem_singleton] at h
      right
      rw [h]
  | cons e0 rest ih =>
      simp only [insertOrInc] at h
      by_cases h0 : e0.1 = k
      · rw [if_pos h0] at h
        rcases List.mem_cons.mp h with h1 | h1
        · left
          exact ⟨e0.2, by rw [h1]; exact List.mem_cons_self _ _⟩
        · left
          exact ⟨e.2, List.mem_cons_of_mem _ h1⟩
      · rw [if_neg h0] at h
        rcases List.mem_cons.mp h with h1 | h1
        · left
          exact ⟨e.2, by rw [h1]; exact List.mem_cons_self _ _⟩
        · rcases ih h1 with ⟨c, hc⟩ | h2
          · exact Or.inl ⟨c, List.mem_cons_of_mem _ hc⟩
          · exact Or.inr h2

theorem getLoggingProfile_snd (prog : Program) (st : GlobalState)
    (skRaw : SrcKey) :
    (getLoggingProfile prog st skRaw).2 = st ∨
    (getLoggingProfile prog st skRaw).2
      = { st with profileMap := st.profileMap ++
            [(canonicalize skRaw, newLoggingProfile (canonicalize skRaw))] } := by
  unfold getLoggingProfile
  split
  · left; rfl
  · simp only []
    split
    · left; rfl
    · split
      · left; rfl
      · right; rfl

theorem getSinkProfile_snd (st : GlobalState) (tid : Nat) (skRaw : SrcKey) :
    (getSinkProfile st tid skRaw).2 = st ∨
    (getSinkProfile st tid skRaw).2
      = { st with sinkMap := st.sinkMap ++
            [((tid, canonicalize skRaw),
              newSinkProfile (tid, canonicalize skRaw))] } := by
  unfold getSinkProfile
  simp only []
  split
  · left; rfl
  · split
    · left; rfl
    · right; rfl

theorem canonKeys_step (prog : Program) (st : GlobalState) (e : PEvent)
    (h : CanonKeys st) : CanonKeys (stepEvent prog st e) := by
  cases e with
  | pGetProfile skRaw =>
      rcases getLoggingProfile_snd prog st skRaw with heq | heq
      · rw [stepEvent, heq]; exact h
      · rw [stepEvent, heq]
        refine ⟨?_, h.2⟩
        intro ent hent
        rcases List.mem_append.mp hent with h1 | h1
        · exact h.1 ent h1
        · rcases List.mem_singleton.mp h1 with rfl
          refine ⟨canonicalize_idem skRaw, ?_⟩
          intro ev hev
          simp [newLoggingProfile] at hev
  | pGetSink tid skRaw =>
      rcases getSinkProfile_snd st tid skRaw with heq | heq
      · rw [stepEvent, heq]; exact h
      · rw [stepEvent, heq]
        refine ⟨h.1, ?_⟩
        intro ent hent
        rcases List.mem_append.mp hent with h1 | h1
        · exact h.2 ent h1
        · rcases List.mem_singleton.mp h1 with rfl
          exact canonicalize_idem skRaw
  | pLogEvent src vm key =>
      refine ⟨?_, h.2⟩
      intro ent hent
      rw [stepEvent] at hent
      simp only [List.mem_map] at hent
      obtain ⟨ent0, hent0, hmap⟩ := hent
      by_cases hsrc : ent0.1 = src
      · rw [if_pos hsrc] at hmap
        subst hmap
        refine ⟨(h.1 ent0 hent0).1, ?_⟩
        intro ev hev
        simp only [LoggingProfile.logEventImpl] at hev
        by_cases hexp : st.exportStarted = true
        · rw [if_pos hexp] at hev
          exact (h.1 ent0 hent0).2 ev hev
        · rw [if_neg hexp] at hev
          rcases mem_insertOrInc _ _ _ hev with ⟨c, hc⟩ | hk
          · exact (h.1 ent0 hent0).2 (ev.1, c) hc
          · rw [show ev.1.1 = sinkFor vm key from congrArg Prod.fst hk]
            exact canonicalize_sinkFor vm key
      · rw [if_neg hsrc] at hmap
        subst hmap
        exact h.1 ent0 hent0
  | pExport path =>
      rw [stepEvent]
      unfold exportProfiles
      split
      · exact h
      · exact h

theorem canonKeys_init : CanonKeys initState := by
  constructor
  · intro ent hent
    simp [initState] at hent
  · intro ent hent
    simp [initState] at hent

theorem canonKeys_runTrace (prog : Program) (tr : List PEvent)
    (st : GlobalState) (h : CanonKeys st) :
    CanonKeys (runTrace prog st tr) := by
  induction tr generalizing st with
  | nil => exact h
  | cons e rest ih =>
      exact ih (stepEvent prog st e) (canonKeys_step prog st e h)

theorem canonKeys_stored (st : GlobalState) (h : CanonKeys st) (sk : SrcKey)
    (hmem : sk ∈ storedSrcKeys st) :
    canonicalize sk = sk ∧ sk.resumeMode = ResumeMode.rmNone := by
  have hc : canonicalize sk = sk := by
    simp only [storedSrcKeys, List.append_assoc, List.mem_append] at hmem
    rcases hmem with h1 | h2 | h3
    · obtain ⟨ent, hent, rfl⟩ := List.mem_map.mp h1
      exact (h.1 ent hent).1
    · obtain ⟨ent, hent, rfl⟩ := List.mem_map.mp h2
      exact h.2 ent hent
    · obtain ⟨l, hl, hskl⟩ := List.mem_flatten.mp h3
      obtain ⟨ent, hent, rfl⟩ := List.mem_map.mp hl
      obtain ⟨ev, hev, rfl⟩ := List.mem_map.mp hskl
      exact (h.1 ent hent).2 ev hev
  exact ⟨hc, (canonicalize_fixed_iff sk).mp hc⟩

/-- Claim C8: after any sequence of profiling operations from the initial
state, every SrcKey stored by the core — as a source-table key, as the SrcKey
component of a sink-table key, or as the sink component of an events-map
key — is a fixed point of `canonicalize` and has resume-mode None. -/
theorem stored_srcKeys_canonical (prog : Program) (tr : List PEvent)
    (sk : SrcKey)
    (hmem : sk ∈ storedSrcKeys (runTrace prog initState tr)) :
    canonicalize sk = sk ∧ sk.resumeMode = ResumeMode.rmNone :=
  canonKeys_stored _ (canonKeys_runTrace prog tr initState canonKeys_init)
    sk hmem

/-- Witness for C8: a lookup at resume-mode Async stores the canonical,
resume-mode-None key. -/
theorem stored_srcKeys_canonical_witness :
    canonicalize ⟨1, 0, ResumeMode.rmNone⟩ = (⟨1, 0, ResumeMode.rmNone⟩ : SrcKey)
    ∧ SrcKey.resumeMode ⟨1, 0, ResumeMode.rmNone⟩ = ResumeMode.rmNone :=
  stored_srcKeys_canonical ceProg
    [PEvent.pGetProfile ⟨1, 0, ResumeMode.rmAsync⟩]
    ⟨1, 0, ResumeMode.rmNone⟩ (by decide)
